import Mathlib

/-!
A shallow embedding of `src/main.py` (RoboEye: vision based object tracking).

The script is a single per-frame loop: HSV color segmentation per configured
color, mask refinement (blur, erode, dilate), contour extraction with a
largest-area gate, a coarse left/center/right direction, and navigation of the
detected centroid toward a random target with a reach cooldown.

Modelling conventions:
  - pixels, masks and frames are lists of lists over ℕ (no floating point);
  - wall-clock times (`time.time()`) are exact rationals; the 0.8 s cooldown
    is the rational 4/5;
  - `random.randint lo hi` takes its randomness from an explicit oracle
    argument `r` and returns `lo + r % (hi - lo + 1)`, which realizes the
    library contract (a value in `[lo, hi]`, inclusive);
  - OpenCV primitives (`inRange`, `GaussianBlur`, `erode`, `dilate`,
    `findContours`, `contourArea`, `boundingRect`) are modelled by executable
    integer counterparts; as in OpenCV, a contour is the traced outer
    boundary polygon of an 8-connected foreground region (Moore border
    following through pixel centers), and `cv2.contourArea` — the absolute
    Green-formula area of that polygon, not the region's pixel count — is
    the shoelace sum over the polygon, kept doubled (`contourArea2`) so it
    stays an integer;
  - the horizontal mirror flip (`cv2.flip(frame, 1)`) is a reparametrization
    of the input frame and is absorbed into the frame argument;
  - `int(np.hypot(dx, dy))` is `Nat.sqrt (dx^2 + dy^2)`: for pixel-scale
    integers the double-precision hypot is exact down to the floor.
-/

namespace RoboEye

/-- An HSV pixel (hue, saturation, value), as produced by
`cv2.cvtColor(frame, cv2.COLOR_BGR2HSV)` at `main.py` line 58. -/
abbrev Pixel := ℕ × ℕ × ℕ

/-- A frame after HSV conversion: a grid of pixels, rows of columns. -/
abbrev Frame := List (List Pixel)

/-- A mask: a grid of intensities (0 is background; `cv2.inRange` writes 255). -/
abbrev Mask := List (List ℕ)

/-- A connected foreground region, given by the list of its pixel
coordinates (x, y). -/
abbrev Contour := List (ℕ × ℕ)

/-- The HSV color table of `main.py` lines 20-26, in its fixed iteration
order: name paired with the list of (lower, upper) bounds. -/
def colors : List (String × List (Pixel × Pixel)) :=
  [("Red", [((0, 120, 70), (10, 255, 255)), ((170, 120, 70), (180, 255, 255))]),
   ("Blue", [((94, 80, 2), (126, 255, 255))]),
   ("Green", [((35, 100, 100), (85, 255, 255))]),
   ("Yellow", [((20, 100, 100), (30, 255, 255))])]

/-- Model of Python `random.randint lo hi` (inclusive on both ends), used at
`main.py` lines 30-31. The oracle `r` supplies the randomness; the result
`lo + r % (hi - lo + 1)` is always in `[lo, hi]` when `lo ≤ hi`, which is the
library contract the script relies on. -/
def randint (lo hi r : ℕ) : ℕ := lo + r % (hi - lo + 1)

/-- `new_random_target` of `main.py` lines 29-32: a random point inside the
frame, `margin` (default 50) away from every edge. -/
def new_random_target (w h r1 r2 : ℕ) (margin : ℕ := 50) : ℕ × ℕ :=
  (randint margin (w - margin) r1, randint margin (h - margin) r2)

/-- `reach_threshold = 30` (`main.py` line 38). -/
def reach_threshold : ℤ := 30

/-- `target_reached_cooldown = 0.8` seconds (`main.py` line 42), as the exact
rational 4/5. -/
def target_reached_cooldown : ℚ := 4 / 5

/-- One `cv2.inRange` test for a single pixel: inclusive bounds on all three
channels. -/
def inRangePix (p lo hi : Pixel) : Bool :=
  decide (lo.1 ≤ p.1) && decide (p.1 ≤ hi.1) &&
  decide (lo.2.1 ≤ p.2.1) && decide (p.2.1 ≤ hi.2.1) &&
  decide (lo.2.2 ≤ p.2.2) && decide (p.2.2 ≤ hi.2.2)

/-- Mask construction of `main.py` lines 66-71: one `cv2.inRange` mask per
(lower, upper) range, combined with `cv2.bitwise_or`. The per-range masks are
pointwise 0/255 grids over the same frame, so the OR-fold is computed
pointwise: a pixel is 255 exactly when some range of the color admits it. -/
def buildMask (frame : Frame) (ranges : List (Pixel × Pixel)) : Mask :=
  frame.map (fun row => row.map (fun p =>
    if ranges.any (fun r => inRangePix p r.1 r.2) then 255 else 0))

/-- Value of a mask at row `i`, column `j`, or 0 when out of bounds. -/
def getN (m : Mask) (i j : ℕ) : ℕ :=
  ((m.get? i).bind (fun row => row.get? j)).getD 0

/-- Signed-index variant of `getN`; negative indices are out of bounds. -/
def getZ (m : Mask) (i j : ℤ) : ℕ :=
  if i < 0 ∨ j < 0 then 0 else getN m i.toNat j.toNat

/-- Value of a mask at (i, j) as an `Option`: `none` exactly when the
position is out of bounds. -/
def getO (m : Mask) (i j : ℤ) : Option ℕ :=
  if i < 0 ∨ j < 0 then none else (m.get? i.toNat).bind (fun row => row.get? j.toNat)

/-- Row lookup with a signed column index, 0 when out of bounds. -/
def rowGetZ (row : List ℕ) (j : ℤ) : ℕ :=
  if j < 0 then 0 else (row.get? j.toNat).getD 0

/-- The 1-D smoothing kernel modelling the 7-tap Gaussian of
`cv2.GaussianBlur(mask, (7, 7), 0)` at `main.py` line 74: binomial weights
summing to 64; the 2-D blur is the separable product of two such passes. -/
def blurK : List ℕ := [1, 6, 15, 20, 15, 6, 1]

/-- Horizontal pass of the separable 7x7 blur; out-of-bounds taps contribute 0. -/
def blurH (m : Mask) : Mask :=
  m.map (fun row => row.enum.map (fun jv =>
    ((List.range 7).map
      (fun b => blurK.getD b 0 * rowGetZ row ((jv.1 : ℤ) + (b : ℤ) - 3))).sum / 64))

/-- Vertical pass of the separable 7x7 blur. -/
def blurV (m : Mask) : Mask :=
  m.enum.map (fun irow => irow.2.enum.map (fun jv =>
    ((List.range 7).map
      (fun a => blurK.getD a 0 * getZ m ((irow.1 : ℤ) + (a : ℤ) - 3) (jv.1 : ℤ))).sum / 64))

/-- Model of `cv2.GaussianBlur(mask, (7, 7), 0)` (`main.py` line 74). -/
def gaussianBlur (m : Mask) : Mask := blurV (blurH m)

/-- The 3x3 neighborhood offsets of the default structuring element used by
`cv2.erode` and `cv2.dilate` when the kernel argument is `None`. -/
def offsets3 : List (ℤ × ℤ) :=
  [(-1, -1), (-1, 0), (-1, 1), (0, -1), (0, 0), (0, 1), (1, -1), (1, 0), (1, 1)]

/-- The in-bounds 3x3 neighborhood values around (i, j). -/
def nbhd (m : Mask) (i j : ℕ) : List ℕ :=
  offsets3.filterMap (fun ab => getO m ((i : ℤ) + ab.1) ((j : ℤ) + ab.2))

/-- Model of `cv2.erode(mask, None, iterations=1)` (`main.py` line 75): the
3x3 minimum; out-of-bounds neighbors are ignored, matching OpenCV's default
border handling which does not erode at the edges. -/
def erode3 (m : Mask) : Mask :=
  m.enum.map (fun irow => irow.2.enum.map (fun jv =>
    (nbhd m irow.1 jv.1).foldl Nat.min jv.2))

/-- Model of `cv2.dilate(mask, None, iterations=1)` (`main.py` line 76): the
3x3 maximum over in-bounds neighbors. -/
def dilate3 (m : Mask) : Mask :=
  m.enum.map (fun irow => irow.2.enum.map (fun jv =>
    (nbhd m irow.1 jv.1).foldl Nat.max jv.2))

/-- 8-connectivity of two pixel coordinates. -/
def adj8 (p q : ℕ × ℕ) : Bool :=
  decide (max p.1 q.1 - min p.1 q.1 ≤ 1) && decide (max p.2 q.2 - min p.2 q.2 ≤ 1)

/-- The maximal runs of consecutive nonzero pixels of row `i`, scanning the
row left to right from column `j`; `cur` accumulates the current run in
reverse. Each finished run is the list of its (x, y) coordinates. -/
def rowRuns (i : ℕ) : List ℕ → ℕ → List (ℕ × ℕ) → List Contour
  | [], _, cur => if cur.isEmpty then [] else [cur.reverse]
  | v :: rest, j, cur =>
    if v ≠ 0 then rowRuns i rest (j + 1) ((j, i) :: cur)
    else if cur.isEmpty then rowRuns i rest (j + 1) []
    else cur.reverse :: rowRuns i rest (j + 1) []

/-- All horizontal foreground runs of a mask, row by row. Two runs of the
same row are never 8-adjacent (a zero column separates them), so the
8-connected components of the mask are exactly the components of the run
adjacency graph. -/
def strips (m : Mask) : List Contour :=
  (m.enum.map (fun irow => rowRuns irow.1 irow.2 0 [])).flatten

/-- Whether two point sets contain an 8-adjacent pair. -/
def touches (c1 c2 : Contour) : Bool :=
  c1.any (fun p => c2.any (fun q => adj8 p q))

/-- Insert one run into the cluster list, merging every cluster it touches
(standard run-based connected-component labeling). -/
def mergeInto (clusters : List Contour) (c : Contour) : List Contour :=
  match clusters.partition (fun cl => touches cl c) with
  | (touched, rest) => (c ++ touched.flatten) :: rest

/-- The 8-connected foreground regions of a mask, each as the list of its
pixels. -/
def regionsOf (m : Mask) : List Contour := (strips m).foldl mergeInto []

/-- The eight neighbor directions in clockwise order on the screen (x grows
to the right, y grows downward), starting East. -/
def mooreDirs : List (ℤ × ℤ) :=
  [(1, 0), (1, 1), (0, 1), (-1, 1), (-1, 0), (-1, -1), (0, -1), (1, -1)]

/-- Direction number `k` (mod 8). -/
def dirAt (k : ℕ) : ℤ × ℤ := mooreDirs.getD (k % 8) (1, 0)

/-- Whether the mask holds a foreground pixel at signed image coordinates
(qx, qy), i.e. column qx of row qy. -/
def maskMem (m : Mask) (qx qy : ℤ) : Bool := decide (getZ m qy qx ≠ 0)

/-- The first pixel of a region in raster-scan order (topmost row, then
leftmost), where OpenCV's border following starts. -/
def rasterMin (a : ℕ × ℕ) : List (ℕ × ℕ) → ℕ × ℕ
  | [] => a
  | q :: qs =>
    if q.2 < a.2 ∨ (q.2 = a.2 ∧ q.1 < a.1) then rasterMin q qs else rasterMin a qs

/-- One step of Moore border following on the mask: having entered (cx, cy)
by a move in direction `dirIn`, scan the eight neighbors clockwise starting
two steps counterclockwise of the entry direction and move to the first
foreground one; `none` for an isolated pixel. -/
def scanNext (m : Mask) (cx cy : ℕ) (dirIn : ℕ) : Option ((ℕ × ℕ) × ℕ) :=
  (List.range 8).findSome? (fun k =>
    let d := (dirIn + 6 + k) % 8
    let qx := (cx : ℤ) + (dirAt d).1
    let qy := (cy : ℤ) + (dirAt d).2
    if maskMem m qx qy then some ((qx.toNat, qy.toNat), d) else none)

/-- Continuation-passing identity on ℕ: scrutinizing `n` hands the
continuation a numeral, which keeps the traced coordinates in normal form
during evaluation. -/
def withN {α : Sort _} (n : ℕ) (k : ℕ → α) : α :=
  match n with
  | 0 => k 0
  | m + 1 => k (m + 1)

/-- The remainder of the border walk, stopping (Jacob's criterion) when the
first move of the walk is about to repeat. -/
def traceBorder (m : Mask) : ℕ → ℕ → ℕ → ℕ → ((ℕ × ℕ) × ℕ) → List (ℕ × ℕ)
  | 0, _, _, _, _ => []
  | fuel + 1, cx, cy, dirIn, stop =>
    match scanNext m cx cy dirIn with
    | none => []
    | some (q, d) =>
      withN q.1 (fun a => withN q.2 (fun b => withN d (fun e =>
        if ((a, b), e) = stop then []
        else (a, b) :: traceBorder m fuel a b e stop)))

/-- The outer boundary polygon of one region of the mask: border following
through the boundary pixel centers, starting at the region's
raster-scan-first pixel. Since distinct regions are never 8-adjacent, the
walk stays on the region it starts on. -/
def borderOf (m : Mask) (comp : Contour) : Contour :=
  match comp with
  | [] => []
  | p :: ps =>
    let s := rasterMin p ps
    match scanNext m s.1 s.2 0 with
    | none => [s]
    | some (p1, d1) =>
      s :: p1 :: traceBorder m (8 * (p :: ps).length + 8) p1.1 p1.2 d1 (p1, d1)

/-- Model of `cv2.findContours(mask, RETR_EXTERNAL, CHAIN_APPROX_SIMPLE)` at
`main.py` line 78: one contour per 8-connected foreground region, each
contour being the traced outer boundary polygon of its region (we keep every
boundary pixel rather than compressing collinear runs; area and bounding box
are unaffected by the compression). The contour list is deterministic in the
mask (OpenCV's own contour order is an implementation detail). -/
def findContours (m : Mask) : List Contour :=
  (regionsOf m).map (fun comp => borderOf m comp)

/-- Twice the shoelace cross-product sum of the closed polygon
`first :: ...`, with `prev` the vertex last seen. -/
def crossWalk (first prev : ℕ × ℕ) : List (ℕ × ℕ) → ℤ
  | [] => (prev.1 : ℤ) * (first.2 : ℤ) - (first.1 : ℤ) * (prev.2 : ℤ)
  | q :: qs =>
    ((prev.1 : ℤ) * (q.2 : ℤ) - (q.1 : ℤ) * (prev.2 : ℤ)) + crossWalk first q qs

/-- Twice the signed Green-formula area of a closed polygon. -/
def shoelace2 : List (ℕ × ℕ) → ℤ
  | [] => 0
  | p :: ps => crossWalk p p ps

/-- Model of `cv2.contourArea` (`main.py` lines 81-82), kept doubled so it
stays an integer: `cv2.contourArea` is the absolute Green-formula
(shoelace) area of the contour polygon, NOT the underlying region's pixel
count; `contourArea2 c` is twice that area, so the source comparison
`area > 800` is exactly `contourArea2 c > 1600`. For a filled w×h
rectangle's contour this gives 2(w-1)(h-1), and 0 for a one-pixel-high
line. -/
def contourArea2 (c : Contour) : ℕ := (shoelace2 c).natAbs

/-- `max(contours, key=cv2.contourArea)` (`main.py` line 81); like Python's
`max`, the first maximum wins ties. -/
def maxByArea (c0 : Contour) (cs : List Contour) : Contour :=
  cs.foldl (fun best c => if contourArea2 best < contourArea2 c then c else best) c0

/-- An axis-aligned bounding box, as returned by `cv2.boundingRect`. -/
structure Rect where
  x : ℕ
  y : ℕ
  w : ℕ
  h : ℕ
deriving DecidableEq, Repr

/-- The minimum of `a` and of `f q` over the points `q` of a list (a running
minimum, written so that the accumulator stays reduced under evaluation). -/
def runMin (f : ℕ × ℕ → ℕ) (a : ℕ) : List (ℕ × ℕ) → ℕ
  | [] => a
  | q :: qs => if f q < a then runMin f (f q) qs else runMin f a qs

/-- The maximum of `a` and of `f q` over the points `q` of a list. -/
def runMax (f : ℕ × ℕ → ℕ) (a : ℕ) : List (ℕ × ℕ) → ℕ
  | [] => a
  | q :: qs => if a < f q then runMax f (f q) qs else runMax f a qs

/-- Model of `cv2.boundingRect` (`main.py` line 85): the tight axis-aligned
box around the contour's points (for an outer boundary polygon this equals
the box around the whole region). -/
def boundingRect : Contour → Rect
  | [] => ⟨0, 0, 0, 0⟩
  | p :: ps =>
    let minX := runMin Prod.fst p.1 ps
    let maxX := runMax Prod.fst p.1 ps
    let minY := runMin Prod.snd p.2 ps
    let maxY := runMax Prod.snd p.2 ps
    ⟨minX, minY, maxX - minX + 1, maxY - minY + 1⟩

/-- The accepted detection of `main.py` lines 84-87: bounding box, its
integer center, and the doubled contour area (`area2 = 2 * cv2.contourArea`). -/
structure Blob where
  x : ℕ
  y : ℕ
  w : ℕ
  h : ℕ
  cx : ℕ
  cy : ℕ
  area2 : ℕ
deriving DecidableEq, Repr

/-- The blob built at `main.py` lines 85-87: `cx = x + w // 2`,
`cy = y + h // 2` (integer division on the bounding box). -/
def mkBlob (c : Contour) : Blob :=
  let r := boundingRect c
  ⟨r.x, r.y, r.w, r.h, r.x + r.w / 2, r.y + r.h / 2, contourArea2 c⟩

/-- `main.py` lines 80-87: take the contour of largest `cv2.contourArea`
and accept it only when that area exceeds 800 (the minimum-area threshold),
else report no blob; `area > 800` is the doubled comparison
`contourArea2 c > 1600`. -/
def selectBlob : List Contour → Option Blob
  | [] => none
  | c0 :: rest =>
    let c := maxByArea c0 rest
    if 1600 < contourArea2 c then some (mkBlob c) else none

/-- The per-color pipeline of `main.py` lines 66-87: build the mask, refine it
(blur, erode, dilate), extract contours, apply the largest-area gate. -/
def detectColor (f : Frame) (ranges : List (Pixel × Pixel)) : Option Blob :=
  selectBlob (findContours (dilate3 (erode3 (gaussianBlur (buildMask f ranges)))))

/-- The color loop of `main.py` lines 65-107: colors in their fixed order,
stopping at the first accepted blob (the `break` at lines 104 and 107), so at
most one detection exists per frame. -/
def detectFirst : List (String × List (Pixel × Pixel)) → Frame → Option (String × Blob)
  | [], _ => none
  | (nm, rs) :: rest, f =>
    match detectColor f rs with
    | some b => some (nm, b)
    | none => detectFirst rest f

/-- Result of the navigation section of one frame (`main.py` lines 109-157):
the target after the frame, the last-reach timestamp after the frame, the
navigation instruction, and the distance (absent when no object). -/
structure NavOut where
  target : ℕ × ℕ
  trt : ℚ
  instr : String
  dist : Option ℕ
deriving DecidableEq, Repr

/-- The horizontal instruction of `main.py` lines 126-128: empty unless
`|dx| > reach_threshold`. -/
def horizInstr (dx : ℤ) : String :=
  if reach_threshold < |dx| then (if 0 < dx then "Move Right" else "Move Left") else ""

/-- The vertical instruction of `main.py` lines 131-133: empty unless
`|dy| > reach_threshold`. -/
def vertInstr (dy : ℤ) : String :=
  if reach_threshold < |dy| then (if 0 < dy then "Move Down" else "Move Up") else ""

/-- `int(np.hypot(dx, dy))` at `main.py` line 123: the integer truncation of
the Euclidean norm, i.e. `Nat.sqrt (dx^2 + dy^2)`. -/
def navDist (dx dy : ℤ) : ℕ := Nat.sqrt (dx * dx + dy * dy).toNat

/-- The navigation section of `main.py` lines 109-157: replace a missing
target (line 110), then branch on the centroid. With a centroid, assemble the
instruction from `horizInstr` and `vertInstr` following the truthiness
cascade of lines 136-143; in the "Target Reached" branch, apply the cooldown
gate of lines 146-150: when `now - trt` exceeds the cooldown, the timestamp
is set to `now` at the moment the gate clears and a fresh random target is
generated; otherwise target and timestamp are untouched. -/
def navStep (w h r1 r2 r3 r4 : ℕ) (tgt : Option (ℕ × ℕ)) (trt now : ℚ)
    (c : Option (ℕ × ℕ)) : NavOut :=
  let t := tgt.getD (new_random_target w h r1 r2)
  match c with
  | none => ⟨t, trt, "No object to navigate", none⟩
  | some cp =>
    let dx : ℤ := (t.1 : ℤ) - (cp.1 : ℤ)
    let dy : ℤ := (t.2 : ℤ) - (cp.2 : ℤ)
    let horiz := horizInstr dx
    let vert := vertInstr dy
    if horiz ≠ "" ∧ vert ≠ "" then ⟨t, trt, horiz ++ " & " ++ vert, some (navDist dx dy)⟩
    else if horiz ≠ "" then ⟨t, trt, horiz, some (navDist dx dy)⟩
    else if vert ≠ "" then ⟨t, trt, vert, some (navDist dx dy)⟩
    else if target_reached_cooldown < now - trt then
      ⟨new_random_target w h r3 r4, now, "Target Reached", some (navDist dx dy)⟩
    else ⟨t, trt, "Target Reached", some (navDist dx dy)⟩

/-- The coarse direction of `main.py` lines 96-101; the comparisons
`cx < w / 3` and `cx > 2 * w / 3` use real division in the source and are
rendered exactly over the integers. -/
def directionOf (cx w : ℕ) : String :=
  if 3 * cx < w then "Move Left"
  else if 2 * w < 3 * cx then "Move Right"
  else "Move Forward"

/-- The module-level mutable state of `main.py` lines 35-42: the
initialization flag, the frame dimensions learned from the first frame, the
current target, and the last-reach timestamp. -/
structure TrackState where
  initialized : Bool
  frameWidth : ℕ
  frameHeight : ℕ
  target : Option (ℕ × ℕ)
  targetReachedTime : ℚ
deriving DecidableEq, Repr

/-- The state at process start (`main.py` lines 35-41): uninitialized, no
target, `target_reached_time = 0`. -/
def initialState : TrackState := ⟨false, 0, 0, none, 0⟩

/-- The per-frame render package, restricted to the fields the spec speaks
about. -/
structure FrameResult where
  direction : String
  detectedColor : Option String
  navInstruction : String
  dist : Option ℕ
deriving DecidableEq, Repr

/-- One iteration of the main loop (`main.py` lines 44-157), with the drawing
calls dropped. First the one-time initialization of lines 51-55 (dimensions
from the first frame, first random target); then the color loop (lines
65-107) and the default direction of line 60; then the navigation section
(lines 109-157). The randomness oracles `r1 r2` feed whichever of the
initialization (line 54) or the missing-target repair (line 111) runs — at
most one of the two can consume randomness in a single frame — and `r3 r4`
feed the post-reach replacement of line 150. -/
def processFrame (st : TrackState) (frame : Frame) (now : ℚ) (r1 r2 r3 r4 : ℕ) :
    TrackState × FrameResult :=
  let st1 := if st.initialized then st else
    { initialized := true
      frameWidth := (frame.headD []).length
      frameHeight := frame.length
      target := some (new_random_target (frame.headD []).length frame.length r1 r2)
      targetReachedTime := st.targetReachedTime }
  let det := detectFirst colors frame
  let out := navStep st1.frameWidth st1.frameHeight r1 r2 r3 r4 st1.target
    st1.targetReachedTime now (det.map (fun p => (p.2.cx, p.2.cy)))
  ({ st1 with target := some out.target, targetReachedTime := out.trt },
   { direction := match det with
       | none => "No Object Detected"
       | some p => directionOf p.2.cx st1.frameWidth
     detectedColor := det.map Prod.fst
     navInstruction := out.instr
     dist := out.dist })

/-- Modelled from the wording of claim C2 and spec section 4.5, for
comparison with the code-side instruction: a horizontal part is present
exactly when `|dx| > 30` ("Move Right" for `dx > 0`, "Move Left" for
`dx < 0`), a vertical part exactly when `|dy| > 30` ("Move Down" for
`dy > 0`, "Move Up" for `dy < 0`); both parts joined by " & ", one part
alone, or "Target Reached" when neither is present. -/
def specNavInstruction (dx dy : ℤ) : String :=
  if 30 < |dx| ∧ 30 < |dy| then
    (if 0 < dx then "Move Right" else "Move Left") ++ " & " ++
      (if 0 < dy then "Move Down" else "Move Up")
  else if 30 < |dx| then (if 0 < dx then "Move Right" else "Move Left")
  else if 30 < |dy| then (if 0 < dy then "Move Down" else "Move Up")
  else "Target Reached"

/-- Modelled from the spec's contrast in claim C9: the area centroid (center
of mass) of a region, with exact rational coordinates. -/
def areaCentroid (c : Contour) : ℚ × ℚ :=
  ((c.map (fun p => (p.1 : ℚ))).sum / (c.length : ℚ),
   (c.map (fun p => (p.2 : ℚ))).sum / (c.length : ℚ))

/-! ### Basic lemmas about the randomness model and running extrema -/

theorem randint_bounds (lo hi r : ℕ) (h : lo ≤ hi) :
    lo ≤ randint lo hi r ∧ randint lo hi r ≤ hi := by
  unfold randint
  have hm : r % (hi - lo + 1) < hi - lo + 1 := Nat.mod_lt _ (Nat.succ_pos _)
  omega

theorem runMin_le (f : ℕ × ℕ → ℕ) :
    ∀ (l : List (ℕ × ℕ)) (a : ℕ), runMin f a l ≤ a := by
  intro l
  induction l with
  | nil => intro a; simp [runMin]
  | cons q qs ih =>
    intro a
    simp only [runMin]
    split
    · exact le_trans (ih (f q)) (le_of_lt (by assumption))
    · exact ih a

theorem runMin_le_mem (f : ℕ × ℕ → ℕ) :
    ∀ (l : List (ℕ × ℕ)) (a : ℕ) (q : ℕ × ℕ), q ∈ l → runMin f a l ≤ f q := by
  intro l
  induction l with
  | nil => intro a q hq; cases hq
  | cons p ps ih =>
    intro a q hq
    simp only [runMin]
    rcases List.mem_cons.1 hq with rfl | hq'
    · split
      · exact runMin_le f ps (f q)
      · exact le_trans (runMin_le f ps a) (by omega)
    · split
      · exact ih (f p) q hq'
      · exact ih a q hq'

theorem le_runMax (f : ℕ × ℕ → ℕ) :
    ∀ (l : List (ℕ × ℕ)) (a : ℕ), a ≤ runMax f a l := by
  intro l
  induction l with
  | nil => intro a; simp [runMax]
  | cons q qs ih =>
    intro a
    simp only [runMax]
    split
    · exact le_trans (le_of_lt (by assumption)) (ih (f q))
    · exact ih a

theorem mem_le_runMax (f : ℕ × ℕ → ℕ) :
    ∀ (l : List (ℕ × ℕ)) (a : ℕ) (q : ℕ × ℕ), q ∈ l → f q ≤ runMax f a l := by
  intro l
  induction l with
  | nil => intro a q hq; cases hq
  | cons p ps ih =>
    intro a q hq
    simp only [runMax]
    rcases List.mem_cons.1 hq with rfl | hq'
    · split
      · exact le_runMax f ps (f q)
      · exact le_trans (by omega) (le_runMax f ps a)
    · split
      · exact ih (f p) q hq'
      · exact ih a q hq'

/-! ### The all-background mask chain: a frame with no pixel in range yields
no contour and hence no detection -/

/-- Every value of the mask is zero. -/
def AllZero (m : Mask) : Prop := ∀ row ∈ m, ∀ v ∈ row, v = 0

theorem rowGetZ_zero {row : List ℕ} (h : ∀ v ∈ row, v = 0) (z : ℤ) :
    rowGetZ row z = 0 := by
  unfold rowGetZ
  split
  · rfl
  · cases hr : row.get? z.toNat with
    | none => rfl
    | some v => simpa using h v (List.get?_mem hr)

theorem getN_zero {m : Mask} (h : AllZero m) (i j : ℕ) : getN m i j = 0 := by
  unfold getN
  cases hr : m.get? i with
  | none => rfl
  | some row =>
    rw [Option.some_bind]
    cases hv : row.get? j with
    | none => rfl
    | some v =>
      rw [Option.getD_some]
      exact h row (List.get?_mem hr) v (List.get?_mem hv)

theorem getZ_zero {m : Mask} (h : AllZero m) (i j : ℤ) : getZ m i j = 0 := by
  unfold getZ
  split
  · rfl
  · exact getN_zero h _ _

theorem getO_zero {m : Mask} (h : AllZero m) {i j : ℤ} {v : ℕ}
    (hv : getO m i j = some v) : v = 0 := by
  unfold getO at hv
  split at hv
  · cases hv
  · cases hr : m.get? i.toNat with
    | none => rw [hr] at hv; cases hv
    | some row =>
      rw [hr] at hv
      exact h row (List.get?_mem hr) v (List.get?_mem hv)

theorem blurH_allzero {m : Mask} (h : AllZero m) : AllZero (blurH m) := by
  intro row' hr' v hv
  unfold blurH at hr'
  rcases List.mem_map.1 hr' with ⟨row, hrow, rfl⟩
  rcases List.mem_map.1 hv with ⟨jv, _, rfl⟩
  have hz : ∀ x ∈ (List.range 7).map
      (fun b => blurK.getD b 0 * rowGetZ row ((jv.1 : ℤ) + (b : ℤ) - 3)), x = 0 := by
    intro x hx
    rcases List.mem_map.1 hx with ⟨b, _, rfl⟩
    rw [rowGetZ_zero (h row hrow), Nat.mul_zero]
  rw [List.sum_eq_zero hz]
  exact Nat.zero_div 64

theorem blurV_allzero {m : Mask} (h : AllZero m) : AllZero (blurV m) := by
  intro row' hr' v hv
  unfold blurV at hr'
  rcases List.mem_map.1 hr' with ⟨irow, _, rfl⟩
  rcases List.mem_map.1 hv with ⟨jv, _, rfl⟩
  have hz : ∀ x ∈ (List.range 7).map
      (fun a => blurK.getD a 0 * getZ m ((irow.1 : ℤ) + (a : ℤ) - 3) (jv.1 : ℤ)), x = 0 := by
    intro x hx
    rcases List.mem_map.1 hx with ⟨a, _, rfl⟩
    rw [getZ_zero h, Nat.mul_zero]
  rw [List.sum_eq_zero hz]
  exact Nat.zero_div 64

theorem gaussianBlur_allzero {m : Mask} (h : AllZero m) : AllZero (gaussianBlur m) :=
  blurV_allzero (blurH_allzero h)

theorem foldl_min_zero : ∀ l : List ℕ, l.foldl Nat.min 0 = 0 := by
  intro l
  induction l with
  | nil => rfl
  | cons x xs ih => simpa [Nat.zero_min] using ih

theorem foldl_max_zero : ∀ l : List ℕ, (∀ x ∈ l, x = 0) → l.foldl Nat.max 0 = 0 := by
  intro l
  induction l with
  | nil => intro _; rfl
  | cons x xs ih =>
    intro h
    have hx : x = 0 := h x (List.mem_cons_self x xs)
    simp only [List.foldl_cons, hx, Nat.max_self]
    exact ih fun y hy => h y (List.mem_cons_of_mem x hy)

theorem erode3_allzero {m : Mask} (h : AllZero m) : AllZero (erode3 m) := by
  intro row' hr' v hv
  unfold erode3 at hr'
  rcases List.mem_map.1 hr' with ⟨irow, hirow, rfl⟩
  rcases List.mem_map.1 hv with ⟨jv, hjv, rfl⟩
  have hrow : irow.2 ∈ m := List.snd_mem_of_mem_enum hirow
  have hjv2 : jv.2 = 0 := h irow.2 hrow jv.2 (List.snd_mem_of_mem_enum hjv)
  rw [hjv2, foldl_min_zero]

theorem dilate3_allzero {m : Mask} (h : AllZero m) : AllZero (dilate3 m) := by
  intro row' hr' v hv
  unfold dilate3 at hr'
  rcases List.mem_map.1 hr' with ⟨irow, hirow, rfl⟩
  rcases List.mem_map.1 hv with ⟨jv, hjv, rfl⟩
  have hrow : irow.2 ∈ m := List.snd_mem_of_mem_enum hirow
  have hjv2 : jv.2 = 0 := h irow.2 hrow jv.2 (List.snd_mem_of_mem_enum hjv)
  rw [hjv2]
  refine foldl_max_zero _ fun x hx => ?_
  rcases List.mem_filterMap.1 hx with ⟨ab, _, hab⟩
  exact getO_zero h hab

/-- A frame none of whose pixels lies in any of the given ranges produces the
all-zero mask. -/
theorem buildMask_allzero {f : Frame} {ranges : List (Pixel × Pixel)}
    (h : ∀ row ∈ f, ∀ p ∈ row, ∀ rg ∈ ranges, inRangePix p rg.1 rg.2 = false) :
    AllZero (buildMask f ranges) := by
  intro row' hr' v hv
  unfold buildMask at hr'
  rcases List.mem_map.1 hr' with ⟨row, hrow, rfl⟩
  rcases List.mem_map.1 hv with ⟨p, hp, rfl⟩
  have hany : (ranges.any fun r => inRangePix p r.1 r.2) = false := by
    rw [List.any_eq_false]
    intro rg hrg
    simp [h row hrow p hp rg hrg]
  simp [hany]

theorem rowRuns_eq_nil {i : ℕ} :
    ∀ row : List ℕ, (∀ v ∈ row, v = 0) → ∀ j, rowRuns i row j [] = [] := by
  intro row
  induction row with
  | nil => intro _ j; rfl
  | cons v rest ih =>
    intro h j
    have hv : v = 0 := h v (List.mem_cons_self v rest)
    simp only [rowRuns, hv, ne_eq, not_true_eq_false, if_false, ite_false,
      List.isEmpty_nil, if_true, ite_true]
    exact ih (fun y hy => h y (List.mem_cons_of_mem v hy)) (j + 1)

theorem strips_eq_nil {m : Mask} (h : AllZero m) : strips m = [] := by
  unfold strips
  rw [List.flatten_eq_nil_iff]
  intro x hx
  rcases List.mem_map.1 hx with ⟨irow, hirow, rfl⟩
  exact rowRuns_eq_nil irow.2 (h irow.2 (List.snd_mem_of_mem_enum hirow)) 0

theorem findContours_eq_nil {m : Mask} (h : AllZero m) : findContours m = [] := by
  unfold findContours regionsOf
  rw [strips_eq_nil h]
  rfl

/-- The whole per-color pipeline reports no blob on a frame none of whose
pixels lies in any of the color's ranges. -/
theorem detectColor_eq_none {f : Frame} {ranges : List (Pixel × Pixel)}
    (h : ∀ row ∈ f, ∀ p ∈ row, ∀ rg ∈ ranges, inRangePix p rg.1 rg.2 = false) :
    detectColor f ranges = none := by
  unfold detectColor
  rw [findContours_eq_nil
    (dilate3_allzero (erode3_allzero (gaussianBlur_allzero (buildMask_allzero h))))]
  rfl

/-- Colors whose pipeline reports no blob are skipped by the color loop. -/
theorem detectFirst_append_none :
    ∀ (pre : List (String × List (Pixel × Pixel)))
      (rest : List (String × List (Pixel × Pixel))) (f : Frame),
      (∀ cr ∈ pre, detectColor f cr.2 = none) →
      detectFirst (pre ++ rest) f = detectFirst rest f := by
  intro pre
  induction pre with
  | nil => intro rest f _; rfl
  | cons cr crs ih =>
    intro rest f h
    obtain ⟨nm, rs⟩ := cr
    have hcr : detectColor f rs = none := h (nm, rs) (List.mem_cons_self _ _)
    simp only [List.cons_append, detectFirst, hcr]
    exact ih rest f fun c hc => h c (List.mem_cons_of_mem _ hc)

/-- C5: colors are tested in the fixed order of the `colors` table and the
loop stops at the first color whose pipeline accepts a blob: whenever the
table splits as `pre ++ (nm, rs) :: post` with every color of `pre`
reporting no blob and `rs` reporting the blob `b`, the frame's detection is
exactly `(nm, b)`; the `Option` result type shows that at most one blob and
one color name exist per frame. -/
theorem first_color_match_wins (f : Frame)
    (pre post : List (String × List (Pixel × Pixel)))
    (nm : String) (rs : List (Pixel × Pixel)) (b : Blob)
    (hcolors : colors = pre ++ (nm, rs) :: post)
    (hpre : ∀ cr ∈ pre, detectColor f cr.2 = none)
    (hdet : detectColor f rs = some b) :
    detectFirst colors f = some (nm, b) := by
  rw [hcolors, detectFirst_append_none pre _ f hpre]
  simp only [detectFirst, hdet]

/-! ### Concrete witness data: a uniformly green 30x30 frame (a 30x30 filled
square is the smallest square whose contour polygon area, 29*29 = 841,
exceeds the 800 threshold) -/

/-- A 30x30 frame of one green HSV pixel. -/
def green30 : Frame := List.replicate 30 (List.replicate 30 (60, 200, 200))

/-- A symmetric mask row: three border values, then a constant plateau. -/
def wRow (a b c d : ℕ) : List ℕ := [a, b, c] ++ List.replicate 24 d ++ [c, b, a]

/-- A symmetric eroded mask row: four border values, then a plateau. -/
def wRowE (a b c d : ℕ) : List ℕ := [a, a, b, c] ++ List.replicate 22 d ++ [c, b, a, a]

/-- The blurred 30x30 full mask. -/
def blur30 : Mask :=
  [wRow 109 148 164 167, wRow 148 202 223 227, wRow 164 223 247 251] ++
  List.replicate 24 (wRow 167 227 251 255) ++
  [wRow 164 223 247 251, wRow 148 202 223 227, wRow 109 148 164 167]

/-- The eroded blurred 30x30 full mask. -/
def erode30 : Mask :=
  [wRowE 109 148 164 167, wRowE 109 148 164 167,
   wRowE 148 202 223 227, wRowE 164 223 247 251] ++
  List.replicate 22 (wRowE 167 227 251 255) ++
  [wRowE 164 223 247 251, wRowE 148 202 223 227,
   wRowE 109 148 164 167, wRowE 109 148 164 167]

theorem g30_mask : buildMask green30 [((35, 100, 100), (85, 255, 255))] =
    List.replicate 30 (List.replicate 30 255) := by decide

theorem g30_blurH : blurH (List.replicate 30 (List.replicate 30 255)) =
    List.replicate 30 (wRow 167 227 251 255) := by decide

set_option maxRecDepth 40000 in
theorem g30_blurV : blurV (List.replicate 30 (wRow 167 227 251 255)) = blur30 := by decide

set_option maxRecDepth 40000 in
theorem g30_erode : erode3 blur30 = erode30 := by decide

set_option maxRecDepth 40000 in
theorem g30_dilate : dilate3 erode30 = blur30 := by decide

set_option maxRecDepth 200000 in
set_option maxHeartbeats 3200000 in
theorem g30_select : selectBlob (findContours blur30) =
    some ⟨0, 0, 30, 30, 15, 15, 1682⟩ := by decide

/-- The green pipeline accepts the whole 30x30 frame as one blob of contour
polygon area 841 (doubled: 1682). -/
theorem green30_green : detectColor green30 [((35, 100, 100), (85, 255, 255))] =
    some ⟨0, 0, 30, 30, 15, 15, 1682⟩ := by
  unfold detectColor gaussianBlur
  rw [g30_mask, g30_blurH, g30_blurV, g30_erode, g30_dilate]
  exact g30_select

/-- No pixel of the green frame lies in a red range. -/
theorem green30_red : detectColor green30
    [((0, 120, 70), (10, 255, 255)), ((170, 120, 70), (180, 255, 255))] = none :=
  detectColor_eq_none (by decide)

/-- No pixel of the green frame lies in the blue range. -/
theorem green30_blue : detectColor green30 [((94, 80, 2), (126, 255, 255))] = none :=
  detectColor_eq_none (by decide)

/-- Witness for C5 at the green 30x30 frame: Red and Blue (the colors before
Green in the table) report no blob, Green reports the accepted square blob,
and the loop returns Green's blob. -/
theorem first_color_match_wins_check :
    detectFirst colors green30 = some ("Green", ⟨0, 0, 30, 30, 15, 15, 1682⟩) :=
  first_color_match_wins green30
    [("Red", [((0, 120, 70), (10, 255, 255)), ((170, 120, 70), (180, 255, 255))]),
     ("Blue", [((94, 80, 2), (126, 255, 255))])]
    [("Yellow", [((20, 100, 100), (30, 255, 255))])]
    "Green" [((35, 100, 100), (85, 255, 255))] ⟨0, 0, 30, 30, 15, 15, 1682⟩
    rfl
    (by
      intro cr hcr
      rcases List.mem_cons.1 hcr with rfl | hcr'
      · exact green30_red
      rcases List.mem_cons.1 hcr' with rfl | hcr''
      · exact green30_blue
      · cases hcr'')
    green30_green

/-- C7: on a frame with no pixel inside any configured color range, every
color's pipeline reports no blob, the loop detects nothing, and the frame
result carries direction "No Object Detected", instruction
"No object to navigate", and no distance. -/
theorem no_pixel_no_detection (f : Frame) (st : TrackState) (now : ℚ)
    (r1 r2 r3 r4 : ℕ)
    (h : ∀ row ∈ f, ∀ p ∈ row, ∀ cr ∈ colors, ∀ rg ∈ cr.2,
      inRangePix p rg.1 rg.2 = false) :
    (∀ cr ∈ colors, detectColor f cr.2 = none) ∧
    detectFirst colors f = none ∧
    (processFrame st f now r1 r2 r3 r4).2.direction = "No Object Detected" ∧
    (processFrame st f now r1 r2 r3 r4).2.navInstruction = "No object to navigate" ∧
    (processFrame st f now r1 r2 r3 r4).2.dist = none := by
  have hall : ∀ cr ∈ colors, detectColor f cr.2 = none := fun cr hcr =>
    detectColor_eq_none fun row hrow p hp rg hrg => h row hrow p hp cr hcr rg hrg
  have hnone : detectFirst colors f = none := by
    have h2 := detectFirst_append_none colors [] f hall
    simpa using h2
  refine ⟨hall, hnone, ?_, ?_, ?_⟩ <;>
    simp [processFrame, hnone, navStep]

/-- Witness for C7 at a 2x2 black frame and an initialized state. -/
theorem no_pixel_no_detection_check :
    (processFrame ⟨true, 640, 480, some (100, 100), 0⟩
        [[(0, 0, 0), (0, 0, 0)], [(0, 0, 0), (0, 0, 0)]] 1 0 0 0 0).2.direction =
      "No Object Detected" ∧
    (processFrame ⟨true, 640, 480, some (100, 100), 0⟩
        [[(0, 0, 0), (0, 0, 0)], [(0, 0, 0), (0, 0, 0)]] 1 0 0 0 0).2.navInstruction =
      "No object to navigate" ∧
    (processFrame ⟨true, 640, 480, some (100, 100), 0⟩
        [[(0, 0, 0), (0, 0, 0)], [(0, 0, 0), (0, 0, 0)]] 1 0 0 0 0).2.dist = none := by
  have h := no_pixel_no_detection [[(0, 0, 0), (0, 0, 0)], [(0, 0, 0), (0, 0, 0)]]
    ⟨true, 640, 480, some (100, 100), 0⟩ 1 0 0 0 0 (by decide)
  exact ⟨h.2.2.1, h.2.2.2.1, h.2.2.2.2⟩

/-! ### Navigation lemmas -/

theorem horizInstr_ne_empty_iff (dx : ℤ) :
    (horizInstr dx ≠ "") ↔ reach_threshold < |dx| := by
  unfold horizInstr
  split
  case isTrue h => exact iff_of_true (by split <;> decide) h
  case isFalse h => exact iff_of_false (by simp) h

theorem vertInstr_ne_empty_iff (dy : ℤ) :
    (vertInstr dy ≠ "") ↔ reach_threshold < |dy| := by
  unfold vertInstr
  split
  case isTrue h => exact iff_of_true (by split <;> decide) h
  case isFalse h => exact iff_of_false (by simp) h

/-- The navigation step on a present target and centroid, with the string
truthiness tests of `main.py` lines 136-143 replaced by the equivalent
threshold comparisons. -/
theorem navStep_some_eq (w h r1 r2 r3 r4 : ℕ) (tgt cp : ℕ × ℕ) (trt now : ℚ) :
    navStep w h r1 r2 r3 r4 (some tgt) trt now (some cp) =
      if reach_threshold < |(tgt.1 : ℤ) - (cp.1 : ℤ)| ∧
          reach_threshold < |(tgt.2 : ℤ) - (cp.2 : ℤ)| then
        ⟨tgt, trt,
          horizInstr ((tgt.1 : ℤ) - (cp.1 : ℤ)) ++ " & " ++
            vertInstr ((tgt.2 : ℤ) - (cp.2 : ℤ)),
          some (navDist ((tgt.1 : ℤ) - (cp.1 : ℤ)) ((tgt.2 : ℤ) - (cp.2 : ℤ)))⟩
      else if reach_threshold < |(tgt.1 : ℤ) - (cp.1 : ℤ)| then
        ⟨tgt, trt, horizInstr ((tgt.1 : ℤ) - (cp.1 : ℤ)),
          some (navDist ((tgt.1 : ℤ) - (cp.1 : ℤ)) ((tgt.2 : ℤ) - (cp.2 : ℤ)))⟩
      else if reach_threshold < |(tgt.2 : ℤ) - (cp.2 : ℤ)| then
        ⟨tgt, trt, vertInstr ((tgt.2 : ℤ) - (cp.2 : ℤ)),
          some (navDist ((tgt.1 : ℤ) - (cp.1 : ℤ)) ((tgt.2 : ℤ) - (cp.2 : ℤ)))⟩
      else if target_reached_cooldown < now - trt then
        ⟨new_random_target w h r3 r4, now, "Target Reached",
          some (navDist ((tgt.1 : ℤ) - (cp.1 : ℤ)) ((tgt.2 : ℤ) - (cp.2 : ℤ)))⟩
      else
        ⟨tgt, trt, "Target Reached",
          some (navDist ((tgt.1 : ℤ) - (cp.1 : ℤ)) ((tgt.2 : ℤ) - (cp.2 : ℤ)))⟩ := by
  simp only [navStep, Option.getD_some, horizInstr_ne_empty_iff, vertInstr_ne_empty_iff]

/-- C2: the navigation instruction is assembled exactly as the spec states
(horizontal part present exactly when `|dx| > 30`, Right/Left by the sign of
`dx`; vertical part exactly when `|dy| > 30`, Down/Up by the sign of `dy`;
joined by " & " when both are present, alone when one is, "Target Reached"
when neither is), and the reported distance is the integer truncation of
the Euclidean norm: its square is at most `dx² + dy²`, which is less than
the square of its successor. -/
theorem nav_instruction_correct (w h r1 r2 r3 r4 tx ty cx cy : ℕ) (trt now : ℚ) :
    (navStep w h r1 r2 r3 r4 (some (tx, ty)) trt now (some (cx, cy))).instr =
      specNavInstruction ((tx : ℤ) - (cx : ℤ)) ((ty : ℤ) - (cy : ℤ)) ∧
    (navStep w h r1 r2 r3 r4 (some (tx, ty)) trt now (some (cx, cy))).dist =
      some (navDist ((tx : ℤ) - (cx : ℤ)) ((ty : ℤ) - (cy : ℤ))) ∧
    (navDist ((tx : ℤ) - (cx : ℤ)) ((ty : ℤ) - (cy : ℤ)) : ℤ) *
        (navDist ((tx : ℤ) - (cx : ℤ)) ((ty : ℤ) - (cy : ℤ)) : ℤ) ≤
      ((tx : ℤ) - (cx : ℤ)) * ((tx : ℤ) - (cx : ℤ)) +
        ((ty : ℤ) - (cy : ℤ)) * ((ty : ℤ) - (cy : ℤ)) ∧
    ((tx : ℤ) - (cx : ℤ)) * ((tx : ℤ) - (cx : ℤ)) +
        ((ty : ℤ) - (cy : ℤ)) * ((ty : ℤ) - (cy : ℤ)) <
      ((navDist ((tx : ℤ) - (cx : ℤ)) ((ty : ℤ) - (cy : ℤ)) : ℤ) + 1) *
        ((navDist ((tx : ℤ) - (cx : ℤ)) ((ty : ℤ) - (cy : ℤ)) : ℤ) + 1) := by
  have hnn : (0 : ℤ) ≤ ((tx : ℤ) - (cx : ℤ)) * ((tx : ℤ) - (cx : ℤ)) +
      ((ty : ℤ) - (cy : ℤ)) * ((ty : ℤ) - (cy : ℤ)) :=
    add_nonneg (mul_self_nonneg _) (mul_self_nonneg _)
  have hcast : ((((tx : ℤ) - (cx : ℤ)) * ((tx : ℤ) - (cx : ℤ)) +
      ((ty : ℤ) - (cy : ℤ)) * ((ty : ℤ) - (cy : ℤ))).toNat : ℤ) =
      ((tx : ℤ) - (cx : ℤ)) * ((tx : ℤ) - (cx : ℤ)) +
        ((ty : ℤ) - (cy : ℤ)) * ((ty : ℤ) - (cy : ℤ)) := Int.toNat_of_nonneg hnn
  refine ⟨?_, ?_, ?_, ?_⟩
  · rw [navStep_some_eq]
    by_cases hdx : reach_threshold < |(tx : ℤ) - (cx : ℤ)| <;>
      by_cases hdy : reach_threshold < |(ty : ℤ) - (cy : ℤ)| <;>
        by_cases hcd : target_reached_cooldown < now - trt <;>
          simp only [reach_threshold] at hdx hdy <;>
            simp [specNavInstruction, horizInstr, vertInstr, reach_threshold, hdx, hdy,
              hcd]
  · rw [navStep_some_eq]
    by_cases hdx : reach_threshold < |(tx : ℤ) - (cx : ℤ)| <;>
      by_cases hdy : reach_threshold < |(ty : ℤ) - (cy : ℤ)| <;>
        by_cases hcd : target_reached_cooldown < now - trt <;>
          simp [hdx, hdy, hcd]
  · have h1 := Nat.sqrt_le ((((tx : ℤ) - (cx : ℤ)) * ((tx : ℤ) - (cx : ℤ)) +
      ((ty : ℤ) - (cy : ℤ)) * ((ty : ℤ) - (cy : ℤ))).toNat)
    have h2 := Int.ofNat_le.2 h1
    push_cast at h2
    rw [hcast] at h2
    exact h2
  · have h1 := Nat.lt_succ_sqrt ((((tx : ℤ) - (cx : ℤ)) * ((tx : ℤ) - (cx : ℤ)) +
      ((ty : ℤ) - (cy : ℤ)) * ((ty : ℤ) - (cy : ℤ))).toNat)
    have h2 := Int.ofNat_lt.2 h1
    push_cast at h2
    rw [hcast] at h2
    exact h2

/-- When the reach branch is taken and the cooldown has elapsed, the
timestamp becomes `now` and the target is freshly generated. -/
theorem navStep_reached_replace (w h r1 r2 r3 r4 : ℕ) (tgt cp : ℕ × ℕ) (trt now : ℚ)
    (hreach : (navStep w h r1 r2 r3 r4 (some tgt) trt now (some cp)).instr =
      "Target Reached")
    (hgate : target_reached_cooldown < now - trt) :
    (navStep w h r1 r2 r3 r4 (some tgt) trt now (some cp)).target =
      new_random_target w h r3 r4 ∧
    (navStep w h r1 r2 r3 r4 (some tgt) trt now (some cp)).trt = now := by
  rw [navStep_some_eq] at hreach ⊢
  by_cases hdx : reach_threshold < |(tgt.1 : ℤ) - (cp.1 : ℤ)| <;>
    by_cases hdy : reach_threshold < |(tgt.2 : ℤ) - (cp.2 : ℤ)|
  · exfalso
    simp only [hdx, hdy, and_self, if_true, ite_true] at hreach
    unfold horizInstr vertInstr at hreach
    rw [if_pos hdx, if_pos hdy] at hreach
    rcases lt_or_le 0 ((tgt.1 : ℤ) - (cp.1 : ℤ)) with hx | hx <;>
      rcases lt_or_le 0 ((tgt.2 : ℤ) - (cp.2 : ℤ)) with hy | hy
    · rw [if_pos hx, if_pos hy] at hreach; exact absurd hreach (by decide)
    · rw [if_pos hx, if_neg (not_lt.2 hy)] at hreach; exact absurd hreach (by decide)
    · rw [if_neg (not_lt.2 hx), if_pos hy] at hreach; exact absurd hreach (by decide)
    · rw [if_neg (not_lt.2 hx), if_neg (not_lt.2 hy)] at hreach
      exact absurd hreach (by decide)
  · exfalso
    simp only [hdx, hdy, and_false, if_false, ite_false, if_true, ite_true] at hreach
    unfold horizInstr at hreach
    rw [if_pos hdx] at hreach
    rcases lt_or_le 0 ((tgt.1 : ℤ) - (cp.1 : ℤ)) with hx | hx
    · rw [if_pos hx] at hreach; exact absurd hreach (by decide)
    · rw [if_neg (not_lt.2 hx)] at hreach; exact absurd hreach (by decide)
  · exfalso
    simp only [hdx, hdy, false_and, if_false, ite_false, if_true, ite_true] at hreach
    unfold vertInstr at hreach
    rw [if_pos hdy] at hreach
    rcases lt_or_le 0 ((tgt.2 : ℤ) - (cp.2 : ℤ)) with hy | hy
    · rw [if_pos hy] at hreach; exact absurd hreach (by decide)
    · rw [if_neg (not_lt.2 hy)] at hreach; exact absurd hreach (by decide)
  · simp [hdx, hdy, hgate]

/-- When the reach branch is taken during the cooldown window, target and
timestamp are unchanged. -/
theorem navStep_reached_keep (w h r1 r2 r3 r4 : ℕ) (tgt cp : ℕ × ℕ) (trt now : ℚ)
    (hgate : ¬ target_reached_cooldown < now - trt) :
    (navStep w h r1 r2 r3 r4 (some tgt) trt now (some cp)).target = tgt ∧
    (navStep w h r1 r2 r3 r4 (some tgt) trt now (some cp)).trt = trt := by
  rw [navStep_some_eq]
  by_cases hdx : reach_threshold < |(tgt.1 : ℤ) - (cp.1 : ℤ)| <;>
    by_cases hdy : reach_threshold < |(tgt.2 : ℤ) - (cp.2 : ℤ)| <;>
      simp [hdx, hdy, hgate]

/-- C1: on a frame whose navigation instruction is "Target Reached", the
target is replaced exactly when `now - last_reach > cooldown`; on
replacement the timestamp becomes `now` (so the cooldown window is anchored
at the reach registration) and the target becomes a fresh random one; during
the cooldown window both target and timestamp are left untouched. -/
theorem cooldown_gate_spec (w h r1 r2 r3 r4 : ℕ) (tgt cp : ℕ × ℕ) (trt now : ℚ)
    (hreach : (navStep w h r1 r2 r3 r4 (some tgt) trt now (some cp)).instr =
      "Target Reached") :
    (target_reached_cooldown < now - trt →
      (navStep w h r1 r2 r3 r4 (some tgt) trt now (some cp)).target =
        new_random_target w h r3 r4 ∧
      (navStep w h r1 r2 r3 r4 (some tgt) trt now (some cp)).trt = now) ∧
    (¬ target_reached_cooldown < now - trt →
      (navStep w h r1 r2 r3 r4 (some tgt) trt now (some cp)).target = tgt ∧
      (navStep w h r1 r2 r3 r4 (some tgt) trt now (some cp)).trt = trt) := by
  exact ⟨fun hgate => navStep_reached_replace w h r1 r2 r3 r4 tgt cp trt now hreach hgate,
    fun hgate => navStep_reached_keep w h r1 r2 r3 r4 tgt cp trt now hgate⟩

/-- A frame whose centroid coincides with the target reports "Target
Reached" (both offsets are zero), at every clock state. -/
theorem reached_at_self (w h r1 r2 r3 r4 : ℕ) (t : ℕ × ℕ) (trt now : ℚ) :
    (navStep w h r1 r2 r3 r4 (some t) trt now (some t)).instr = "Target Reached" := by
  rw [navStep_some_eq]
  have hr0 : ¬ reach_threshold < (0 : ℤ) := by decide
  by_cases hg : target_reached_cooldown < now - trt <;>
    simp [sub_self, abs_zero, hr0, hg]

/-- Witness for C1 at the spec's cooldown scenario: a reach registered at
time 0; a reach-eligible frame at 0.9 s replaces the target and moves the
timestamp, one at 0.3 s changes nothing. -/
theorem cooldown_gate_spec_check :
    ((navStep 640 480 0 0 7 9 (some (100, 100)) 0 (9 / 10) (some (100, 100))).target =
        new_random_target 640 480 7 9 ∧
      (navStep 640 480 0 0 7 9 (some (100, 100)) 0 (9 / 10) (some (100, 100))).trt =
        9 / 10) ∧
    ((navStep 640 480 0 0 7 9 (some (100, 100)) 0 (3 / 10) (some (100, 100))).target =
        (100, 100) ∧
      (navStep 640 480 0 0 7 9 (some (100, 100)) 0 (3 / 10) (some (100, 100))).trt = 0) :=
  ⟨(cooldown_gate_spec 640 480 0 0 7 9 (100, 100) (100, 100) 0 (9 / 10)
      (reached_at_self 640 480 0 0 7 9 (100, 100) 0 (9 / 10))).1
      (by norm_num [target_reached_cooldown]),
    (cooldown_gate_spec 640 480 0 0 7 9 (100, 100) (100, 100) 0 (3 / 10)
      (reached_at_self 640 480 0 0 7 9 (100, 100) 0 (3 / 10))).2
      (by norm_num [target_reached_cooldown])⟩

/-- C10: the last-reach timestamp starts at 0, so at any wall-clock instant
later than the cooldown length (every `time.time()` reading, which counts
seconds since 1970, is), the first "Target Reached" frame clears the gate
immediately: the target is replaced and the timestamp set. -/
theorem first_reach_no_cooldown (w h r1 r2 r3 r4 : ℕ) (tgt cp : ℕ × ℕ) (now : ℚ)
    (hnow : target_reached_cooldown < now)
    (hreach : (navStep w h r1 r2 r3 r4 (some tgt) initialState.targetReachedTime now
      (some cp)).instr = "Target Reached") :
    initialState.targetReachedTime = 0 ∧
    (navStep w h r1 r2 r3 r4 (some tgt) initialState.targetReachedTime now
      (some cp)).target = new_random_target w h r3 r4 ∧
    (navStep w h r1 r2 r3 r4 (some tgt) initialState.targetReachedTime now
      (some cp)).trt = now := by
  have h0 : initialState.targetReachedTime = 0 := rfl
  have hgate : target_reached_cooldown < now - initialState.targetReachedTime := by
    rw [h0, sub_zero]; exact hnow
  exact ⟨h0, navStep_reached_replace w h r1 r2 r3 r4 tgt cp _ now hreach hgate⟩

/-- Witness for C10: the first reach at wall-clock time 1 replaces the target
at once. -/
theorem first_reach_no_cooldown_check :
    (navStep 640 480 0 0 7 9 (some (100, 100)) initialState.targetReachedTime 1
        (some (100, 100))).target = new_random_target 640 480 7 9 ∧
    (navStep 640 480 0 0 7 9 (some (100, 100)) initialState.targetReachedTime 1
        (some (100, 100))).trt = 1 :=
  (first_reach_no_cooldown 640 480 0 0 7 9 (100, 100) (100, 100) 1
    (by norm_num [target_reached_cooldown])
    (reached_at_self 640 480 0 0 7 9 (100, 100) initialState.targetReachedTime 1)).2

/-- C8: the NavigationState (instruction and distance) computed for a given
centroid and target does not depend on the cooldown state, the clock, or the
randomness, so two evaluations with identical (centroid, target) inputs
agree; one frame updates the reach timestamp at most once (it is either kept
or set to `now`); and a second evaluation at the very instant a reach was
registered changes neither target nor timestamp, so a "Target Reached" frame
reports at most one reach event, not one per evaluation. -/
theorem navigator_idempotent :
    (∀ (w h r1 r2 r3 r4 s1 s2 s3 s4 : ℕ) (tgt cp : ℕ × ℕ) (trt trt2 now now2 : ℚ),
      (navStep w h r1 r2 r3 r4 (some tgt) trt now (some cp)).instr =
        (navStep w h s1 s2 s3 s4 (some tgt) trt2 now2 (some cp)).instr ∧
      (navStep w h r1 r2 r3 r4 (some tgt) trt now (some cp)).dist =
        (navStep w h s1 s2 s3 s4 (some tgt) trt2 now2 (some cp)).dist) ∧
    (∀ (w h r1 r2 r3 r4 : ℕ) (tgt : Option (ℕ × ℕ)) (trt now : ℚ)
        (c : Option (ℕ × ℕ)),
      (navStep w h r1 r2 r3 r4 tgt trt now c).trt = trt ∨
      (navStep w h r1 r2 r3 r4 tgt trt now c).trt = now) ∧
    (∀ (w h r1 r2 r3 r4 : ℕ) (tgt : ℕ × ℕ) (now : ℚ) (c : Option (ℕ × ℕ)),
      (navStep w h r1 r2 r3 r4 (some tgt) now now c).target = tgt ∧
      (navStep w h r1 r2 r3 r4 (some tgt) now now c).trt = now) := by
  refine ⟨?_, ?_, ?_⟩
  · intro w h r1 r2 r3 r4 s1 s2 s3 s4 tgt cp trt trt2 now now2
    rw [navStep_some_eq, navStep_some_eq]
    by_cases hdx : reach_threshold < |(tgt.1 : ℤ) - (cp.1 : ℤ)| <;>
      by_cases hdy : reach_threshold < |(tgt.2 : ℤ) - (cp.2 : ℤ)| <;>
        by_cases h1 : target_reached_cooldown < now - trt <;>
          by_cases h2 : target_reached_cooldown < now2 - trt2 <;>
            simp [hdx, hdy, h1, h2]
  · intro w h r1 r2 r3 r4 tgt trt now c
    cases c with
    | none => left; rfl
    | some cp =>
      cases tgt with
      | none =>
        simp only [navStep]
        split_ifs <;> simp
      | some t =>
        rw [navStep_some_eq]
        split_ifs <;> simp
  · intro w h r1 r2 r3 r4 tgt now c
    have hgate : ¬ target_reached_cooldown < (0 : ℚ) := by
      norm_num [target_reached_cooldown]
    cases c with
    | none => exact ⟨rfl, rfl⟩
    | some cp =>
      rw [navStep_some_eq]
      by_cases hdx : reach_threshold < |(tgt.1 : ℤ) - (cp.1 : ℤ)| <;>
        by_cases hdy : reach_threshold < |(tgt.2 : ℤ) - (cp.2 : ℤ)| <;>
          simp [hdx, hdy, sub_self, hgate]

/-! ### Blob selection, bounding box and target invariants -/

/-- A mask whose single 8-connected foreground region has exactly 801
pixels: a 28x28 square of 255s with a 17-pixel strip of 255s under its left
part. The region's contour polygon area is 745.5 (doubled: 1491). -/
def mask801 : Mask :=
  List.replicate 28 (List.replicate 28 255) ++
  [List.replicate 17 255 ++ List.replicate 11 0]

/-- A mask whose single region has exactly 799 pixels: a 28x28 square plus
a 15-pixel strip. Its contour polygon area is 743.5 (doubled: 1487). -/
def mask799 : Mask :=
  List.replicate 28 (List.replicate 28 255) ++
  [List.replicate 15 255 ++ List.replicate 13 0]

/-- A mask that is one filled 30x30 square: 900 pixels, contour polygon
area 29*29 = 841 (doubled: 1682). -/
def mask900 : Mask := List.replicate 30 (List.replicate 30 255)

set_option maxRecDepth 40000 in
/-- Counterexample to C3 as stated: the "area" the code compares against
800 is `cv2.contourArea`, the Green-formula polygon area of the region's
traced outer boundary, not the region's pixel count. On a mask whose single
(hence largest) connected region has exactly 801 pixels, the polygon area
is at most 798 (here 745.5), so the selector yields no blob — refuting "a
mask whose largest connected region has area 801 yields an accepted
Blob". -/
theorem pixel_area_801_rejected :
    (regionsOf mask801).map List.length = [801] ∧
    selectBlob (findContours mask801) = none :=
  ⟨by decide, by decide⟩

set_option maxRecDepth 40000 in
/-- C3 (amended): acceptance is exactly the strict comparison of the
largest contour's `cv2.contourArea` — the Green-formula polygon area of the
region's outer boundary, not its pixel count — against the 800 threshold
(in doubled form: `area2 > 1600`), so every accepted blob has polygon area
above (hence at least) 800; a mask whose single region has 799 pixels is
rejected, one with 801 pixels is rejected as well (its polygon area is only
745.5), and a 30x30 filled square (900 pixels, polygon area 841) is
accepted. -/
theorem blob_min_area_polygon :
    (∀ (cs : List Contour) (b : Blob), selectBlob cs = some b → 1600 < b.area2) ∧
    (regionsOf mask799).map List.length = [799] ∧
    selectBlob (findContours mask799) = none ∧
    selectBlob (findContours mask801) = none ∧
    selectBlob (findContours mask900) = some ⟨0, 0, 30, 30, 15, 15, 1682⟩ ∧
    (∀ (c0 : Contour) (rest : List Contour),
      (selectBlob (c0 :: rest)).isSome = true ↔
        1600 < contourArea2 (maxByArea c0 rest)) := by
  refine ⟨?_, by decide, by decide, by decide, by decide, ?_⟩
  · intro cs b hsb
    cases cs with
    | nil => cases hsb
    | cons c0 rest =>
      simp only [selectBlob] at hsb
      split_ifs at hsb with harea
      · cases hsb
        have hba : (mkBlob (maxByArea c0 rest)).area2 =
            contourArea2 (maxByArea c0 rest) := rfl
        omega
  · intro c0 rest
    simp only [selectBlob]
    split_ifs with harea <;> simp [harea]

/-- Witness for C3 (amended): the accepted 30x30 square blob has doubled
polygon area above 1600. -/
theorem blob_min_area_polygon_check :
    1600 < (Blob.mk 0 0 30 30 15 15 1682).area2 :=
  blob_min_area_polygon.1 (findContours mask900) ⟨0, 0, 30, 30, 15, 15, 1682⟩
    blob_min_area_polygon.2.2.2.2.1

/-- C4: the code has no notion of an InvalidFrame condition. On a zero-sized
frame, the per-color mask construction silently yields the empty
(zero-sized) mask for every color, the color loop detects nothing, and the
cycle completes normally with instruction "No object to navigate" and an
unchanged state — exactly the "silently producing an empty mask" behavior
the spec forbids (in the real runtime the unguarded `cv2.cvtColor` call on
an empty frame raises an uncaught error, crashing the process rather than
skipping the frame). -/
theorem zero_frame_silent_empty_mask :
    (∀ ranges : List (Pixel × Pixel), buildMask ([] : Frame) ranges = ([] : Mask)) ∧
    detectFirst colors ([] : Frame) = none ∧
    (processFrame ⟨true, 640, 480, some (100, 100), 0⟩ ([] : Frame)
      0 0 0 0 0).2.navInstruction = "No object to navigate" ∧
    (processFrame ⟨true, 640, 480, some (100, 100), 0⟩ ([] : Frame) 0 0 0 0 0).1 =
      ⟨true, 640, 480, some (100, 100), 0⟩ := by
  have hdf : detectFirst colors ([] : Frame) = none := by decide
  refine ⟨fun ranges => rfl, hdf, ?_, ?_⟩
  · simp [processFrame, hdf, navStep]
  · simp [processFrame, hdf, navStep]

/-- The target after one navigation step is either the incoming one (with
the missing-target repair of line 110) or a freshly generated random one. -/
theorem navStep_target_cases (w h r1 r2 r3 r4 : ℕ) (tgt : Option (ℕ × ℕ))
    (trt now : ℚ) (c : Option (ℕ × ℕ)) :
    (navStep w h r1 r2 r3 r4 tgt trt now c).target =
      tgt.getD (new_random_target w h r1 r2) ∨
    (navStep w h r1 r2 r3 r4 tgt trt now c).target = new_random_target w h r3 r4 := by
  cases c with
  | none => left; rfl
  | some cp =>
    simp only [navStep]
    split_ifs <;> simp

/-- C6: for frame dimensions of at least 100 pixels each way, every random
target (the initial one and every replacement) lies in
`[50, w-50] × [50, h-50]`; and a frame step from an initialized state whose
target satisfies the margins yields a state that again holds exactly one
target satisfying the margins. -/
theorem target_margin_bounds (w h : ℕ) (hw : 100 ≤ w) (hh : 100 ≤ h) :
    (∀ r1 r2 : ℕ,
      50 ≤ (new_random_target w h r1 r2).1 ∧ (new_random_target w h r1 r2).1 ≤ w - 50 ∧
      50 ≤ (new_random_target w h r1 r2).2 ∧ (new_random_target w h r1 r2).2 ≤ h - 50) ∧
    (∀ (st : TrackState) (f : Frame) (now : ℚ) (r1 r2 r3 r4 : ℕ),
      st.initialized = true → st.frameWidth = w → st.frameHeight = h →
      (∀ t, st.target = some t →
        50 ≤ t.1 ∧ t.1 ≤ w - 50 ∧ 50 ≤ t.2 ∧ t.2 ≤ h - 50) →
      ∃ t', ((processFrame st f now r1 r2 r3 r4).1).target = some t' ∧
        50 ≤ t'.1 ∧ t'.1 ≤ w - 50 ∧ 50 ≤ t'.2 ∧ t'.2 ≤ h - 50) := by
  have hb : ∀ r1 r2 : ℕ,
      50 ≤ (new_random_target w h r1 r2).1 ∧ (new_random_target w h r1 r2).1 ≤ w - 50 ∧
      50 ≤ (new_random_target w h r1 r2).2 ∧ (new_random_target w h r1 r2).2 ≤ h - 50 := by
    intro r1 r2
    have h1 := randint_bounds 50 (w - 50) r1 (by omega)
    have h2 := randint_bounds 50 (h - 50) r2 (by omega)
    exact ⟨h1.1, h1.2, h2.1, h2.2⟩
  refine ⟨hb, ?_⟩
  intro st f now r1 r2 r3 r4 hinit hfw hfh htgt
  have hps : ((processFrame st f now r1 r2 r3 r4).1).target =
      some ((navStep w h r1 r2 r3 r4 st.target st.targetReachedTime now
        ((detectFirst colors f).map (fun p => (p.2.cx, p.2.cy)))).target) := by
    simp [processFrame, hinit, hfw, hfh]
  rcases hst : st.target with _ | t
  · rw [hst] at hps
    rcases navStep_target_cases w h r1 r2 r3 r4 none st.targetReachedTime now
        ((detectFirst colors f).map (fun p => (p.2.cx, p.2.cy))) with hcase | hcase
    · rw [Option.getD_none] at hcase
      exact ⟨new_random_target w h r1 r2, by rw [hps, hcase], hb r1 r2⟩
    · exact ⟨new_random_target w h r3 r4, by rw [hps, hcase], hb r3 r4⟩
  · rw [hst] at hps
    rcases navStep_target_cases w h r1 r2 r3 r4 (some t) st.targetReachedTime now
        ((detectFirst colors f).map (fun p => (p.2.cx, p.2.cy))) with hcase | hcase
    · rw [Option.getD_some] at hcase
      exact ⟨t, by rw [hps, hcase], htgt t hst⟩
    · exact ⟨new_random_target w h r3 r4, by rw [hps, hcase], hb r3 r4⟩

/-- Witness for C6 at 640x480: a fresh random target is in bounds, and a
frame step from an in-bounds state stays in bounds. -/
theorem target_margin_bounds_check :
    (50 ≤ (new_random_target 640 480 0 0).1 ∧ (new_random_target 640 480 0 0).1 ≤ 590 ∧
      50 ≤ (new_random_target 640 480 0 0).2 ∧ (new_random_target 640 480 0 0).2 ≤ 430) ∧
    ∃ t', ((processFrame ⟨true, 640, 480, some (100, 100), 0⟩ [[(0, 0, 0)]]
        1 0 0 0 0).1).target = some t' ∧
      50 ≤ t'.1 ∧ t'.1 ≤ 590 ∧ 50 ≤ t'.2 ∧ t'.2 ≤ 430 :=
  ⟨(target_margin_bounds 640 480 (by decide) (by decide)).1 0 0,
    (target_margin_bounds 640 480 (by decide) (by decide)).2
      ⟨true, 640, 480, some (100, 100), 0⟩ [[(0, 0, 0)]] 1 0 0 0 0
      rfl rfl rfl (by intro t ht; cases ht; decide)⟩

/-- The non-convex L-shaped test region for the centroid claim. -/
def Lregion : Contour := [(0, 0), (1, 0), (2, 0), (0, 1), (0, 2)]

/-- C9: the reported centroid of a blob is the integer center of its
bounding box (`cx = x + w / 2`, `cy = y + h / 2`), which always lies inside
the bounding box of the region's points; it is not the area centroid, and
for a non-convex region (the L shape) it lies outside the region itself. -/
theorem bbox_center_centroid :
    (∀ (p : ℕ × ℕ) (ps : List (ℕ × ℕ)),
      (mkBlob (p :: ps)).cx = (mkBlob (p :: ps)).x + (mkBlob (p :: ps)).w / 2 ∧
      (mkBlob (p :: ps)).cy = (mkBlob (p :: ps)).y + (mkBlob (p :: ps)).h / 2 ∧
      (∀ q ∈ p :: ps,
        (mkBlob (p :: ps)).x ≤ q.1 ∧
        q.1 ≤ (mkBlob (p :: ps)).x + (mkBlob (p :: ps)).w - 1 ∧
        (mkBlob (p :: ps)).y ≤ q.2 ∧
        q.2 ≤ (mkBlob (p :: ps)).y + (mkBlob (p :: ps)).h - 1) ∧
      (mkBlob (p :: ps)).x ≤ (mkBlob (p :: ps)).cx ∧
      (mkBlob (p :: ps)).cx ≤ (mkBlob (p :: ps)).x + (mkBlob (p :: ps)).w - 1 ∧
      (mkBlob (p :: ps)).y ≤ (mkBlob (p :: ps)).cy ∧
      (mkBlob (p :: ps)).cy ≤ (mkBlob (p :: ps)).y + (mkBlob (p :: ps)).h - 1) ∧
    ((mkBlob Lregion).cx, (mkBlob Lregion).cy) ∉ Lregion ∧
    areaCentroid Lregion ≠ (((mkBlob Lregion).cx : ℚ), ((mkBlob Lregion).cy : ℚ)) := by
  refine ⟨?_, ?_, ?_⟩
  · intro p ps
    have hxv : (mkBlob (p :: ps)).x = runMin Prod.fst p.1 ps := rfl
    have hyv : (mkBlob (p :: ps)).y = runMin Prod.snd p.2 ps := rfl
    have hwv : (mkBlob (p :: ps)).w =
      runMax Prod.fst p.1 ps - runMin Prod.fst p.1 ps + 1 := rfl
    have hhv : (mkBlob (p :: ps)).h =
      runMax Prod.snd p.2 ps - runMin Prod.snd p.2 ps + 1 := rfl
    have hcxv : (mkBlob (p :: ps)).cx = (mkBlob (p :: ps)).x + (mkBlob (p :: ps)).w / 2 :=
      rfl
    have hcyv : (mkBlob (p :: ps)).cy = (mkBlob (p :: ps)).y + (mkBlob (p :: ps)).h / 2 :=
      rfl
    have hx1 : runMin Prod.fst p.1 ps ≤ p.1 := runMin_le Prod.fst ps p.1
    have hx2 : p.1 ≤ runMax Prod.fst p.1 ps := le_runMax Prod.fst ps p.1
    have hy1 : runMin Prod.snd p.2 ps ≤ p.2 := runMin_le Prod.snd ps p.2
    have hy2 : p.2 ≤ runMax Prod.snd p.2 ps := le_runMax Prod.snd ps p.2
    refine ⟨hcxv, hcyv, ?_, ?_, ?_, ?_, ?_⟩
    · intro q hq
      rcases List.mem_cons.1 hq with rfl | hq'
      · rw [hxv, hyv, hwv, hhv]; omega
      · have ha : runMin Prod.fst p.1 ps ≤ q.1 := runMin_le_mem Prod.fst ps p.1 q hq'
        have hb2 : q.1 ≤ runMax Prod.fst p.1 ps := mem_le_runMax Prod.fst ps p.1 q hq'
        have hc : runMin Prod.snd p.2 ps ≤ q.2 := runMin_le_mem Prod.snd ps p.2 q hq'
        have hd : q.2 ≤ runMax Prod.snd p.2 ps := mem_le_runMax Prod.snd ps p.2 q hq'
        rw [hxv, hyv, hwv, hhv]
        omega
    · rw [hcxv, hxv, hwv]; omega
    · rw [hcxv, hxv, hwv]; omega
    · rw [hcyv, hyv, hhv]; omega
    · rw [hcyv, hyv, hhv]; omega
  · decide
  · have hcx : (mkBlob Lregion).cx = 1 := by decide
    have hcy : (mkBlob Lregion).cy = 1 := by decide
    rw [hcx, hcy]
    intro hc
    rw [Prod.ext_iff] at hc
    have h1 : (areaCentroid Lregion).1 = 3 / 5 := by
      norm_num [areaCentroid, Lregion]
    rw [h1] at hc
    have h2 : ((1 : ℕ) : ℚ) = 1 := Nat.cast_one
    rw [h2] at hc
    norm_num at hc

/-- Witness for C9: on the L region, the point (2, 0) lies inside the
computed bounding box. -/
theorem bbox_center_centroid_check :
    (mkBlob ((0, 0) :: [(1, 0), (2, 0), (0, 1), (0, 2)])).x ≤ 2 ∧
    2 ≤ (mkBlob ((0, 0) :: [(1, 0), (2, 0), (0, 1), (0, 2)])).x +
      (mkBlob ((0, 0) :: [(1, 0), (2, 0), (0, 1), (0, 2)])).w - 1 ∧
    (mkBlob ((0, 0) :: [(1, 0), (2, 0), (0, 1), (0, 2)])).y ≤ 0 ∧
    0 ≤ (mkBlob ((0, 0) :: [(1, 0), (2, 0), (0, 1), (0, 2)])).y +
      (mkBlob ((0, 0) :: [(1, 0), (2, 0), (0, 1), (0, 2)])).h - 1 :=
  (bbox_center_centroid.1 (0, 0) [(1, 0), (2, 0), (0, 1), (0, 2)]).2.2.1 (2, 0)
    (by decide)

end RoboEye
